import Mathlib

/-!
Shallow embedding of `acmi-rescue` (src/main.rs): a tool that salvages
newline-delimited text records from a truncated, deflate-compressed,
single-entry ZIP ("ACMI") capture.

Bytes are modelled as natural numbers (each < 256 in the intended
interpretation).  The borrowed-slice cursor `&mut &[u8]` becomes explicit
state passing: each read returns the value together with the remaining
suffix, and the panics of `split_at` / slice indexing on short input become
`Option.none` / an explicit panic value.

The deflate decompressor (`flate2::read::DeflateDecoder`) is an external
library, so the pipeline is parametrised over it as an abstract function
from the payload bytes to the decompressed byte stream together with a
termination event: either clean end-of-stream, or an `io::Error` of some
kind.  `flate2` reports corrupt/truncated deflate data with
`io::ErrorKind::InvalidInput`, which is the benign truncation signature
that `run` matches on; `BufRead::read_line` reports invalid UTF-8 with
`io::ErrorKind::InvalidData`.
-/

set_option autoImplicit false

namespace AcmiRescue

/-- A byte buffer: list of naturals, each `< 256` in the intended reading. -/
abbrev Bytes := List Nat

/-- Model of `read_u16` from src/main.rs: reads a little-endian u16 from the front of
the slice, shrinking it.  `split_at` panics when fewer than two bytes remain,
modelled as `none`. -/
def read_u16 : Bytes → Option (Nat × Bytes)
  | b0 :: b1 :: rest => some (b0 + 256 * b1, rest)
  | _ => none

/-- Model of `read_u32` from src/main.rs: reads a little-endian u32 from the front of
the slice, shrinking it.  `split_at` panics when fewer than four bytes remain,
modelled as `none`. -/
def read_u32 : Bytes → Option (Nat × Bytes)
  | b0 :: b1 :: b2 :: b3 :: rest =>
      some (b0 + 256 * b1 + 65536 * b2 + 16777216 * b3, rest)
  | _ => none

/-- Magic constant `LOCAL_FILE_HEADER_MAGIC`, that is `[b'P', b'K', 3, 4]`. -/
def LOCAL_FILE_HEADER_MAGIC : Bytes := [80, 75, 3, 4]

/-- Model of `slice::split_at(n)`, which panics when `n` exceeds the slice length
(modelled as `none`). -/
def splitAtChecked (n : Nat) (l : Bytes) : Option (Bytes × Bytes) :=
  if n ≤ l.length then some (l.take n, l.drop n) else none

/-- Model of `LocalFileHeader` from src/main.rs: data parsed from a ZIP local file
header. -/
structure LocalFileHeader where
  minimum_extract_version : Nat
  flags : Nat
  compression_method : Nat
  last_modified_time : Nat
  last_modified_date : Nat
  crc32 : Nat
  compressed_size : Nat
  uncompressed_size : Nat
  path : Bytes
  extra_field : Bytes
deriving Repr, DecidableEq

/-- The two ways `LocalFileHeader::parse_and_consume` can panic: the
`assert_eq!` on the magic bytes fails, or a slice operation
(`header[..4]`, `split_at`) runs past the end of the buffer. -/
inductive ParsePanic where
  | badMagicAssert
  | sliceOutOfBounds
deriving Repr, DecidableEq

/-- Lift the `none` of a panicking slice operation into the panic monad. -/
def orPanic {α : Type} : Option α → Except ParsePanic α
  | some a => Except.ok a
  | none => Except.error ParsePanic.sliceOutOfBounds

/-- Model of `LocalFileHeader::parse_and_consume` from src/main.rs, with the final
cursor returned alongside the header (the Rust version mutates `&mut &[u8]`
in place).  Field order and widths follow the source exactly. -/
def parse_and_consume (header : Bytes) :
    Except ParsePanic (LocalFileHeader × Bytes) := do
  -- assert_eq!(header[..4], LOCAL_FILE_HEADER_MAGIC); *header = &header[4..];
  let (magic, header) ← orPanic (splitAtChecked 4 header)
  if magic = LOCAL_FILE_HEADER_MAGIC then pure () else
    throw ParsePanic.badMagicAssert
  let (minimum_extract_version, header) ← orPanic (read_u16 header)
  let (flags, header) ← orPanic (read_u16 header)
  let (compression_method, header) ← orPanic (read_u16 header)
  let (last_modified_time, header) ← orPanic (read_u16 header)
  let (last_modified_date, header) ← orPanic (read_u16 header)
  let (crc32, header) ← orPanic (read_u32 header)
  let (compressed_size, header) ← orPanic (read_u32 header)
  let (uncompressed_size, header) ← orPanic (read_u32 header)
  let (path_length, header) ← orPanic (read_u16 header)
  let (extra_field_length, header) ← orPanic (read_u16 header)
  let (path, header) ← orPanic (splitAtChecked path_length header)
  let (extra_field, header) ← orPanic (splitAtChecked extra_field_length header)
  return ({ minimum_extract_version, flags, compression_method,
            last_modified_time, last_modified_date, crc32,
            compressed_size, uncompressed_size, path, extra_field },
          header)

/-- The `io::ErrorKind` values the pipeline distinguishes.
`invalidInput` is what `flate2` attaches to a corrupt/truncated deflate
stream; `invalidData` is what `read_line` attaches to invalid UTF-8; every
other kind is collapsed into `otherError`. -/
inductive ErrorKind where
  | invalidInput
  | invalidData
  | otherError (n : Nat)
deriving Repr, DecidableEq

/-- How the decompressor's byte stream ends: clean end-of-stream, or an
`io::Error` of the given kind. -/
inductive Term where
  | eof
  | err (k : ErrorKind)
deriving Repr, DecidableEq

/-- Is `b` a UTF-8 continuation byte (`0x80..=0xBF`)? -/
def isUtf8Cont (b : Nat) : Bool := 128 ≤ b && b ≤ 191

/-- UTF-8 validity exactly as Rust's `String::from_utf8` checks it
(RFC 3629: no overlong encodings, no surrogates, max scalar `0x10FFFF`). -/
def isValidUtf8 : Bytes → Bool
  | [] => true
  | b :: rest =>
    if b ≤ 127 then isValidUtf8 rest
    else if b ≤ 193 then false
    else if b ≤ 223 then
      match rest with
      | c1 :: rest2 => isUtf8Cont c1 && isValidUtf8 rest2
      | _ => false
    else if b ≤ 239 then
      match rest with
      | c1 :: c2 :: rest2 =>
        (if b = 224 then (160 ≤ c1 && c1 ≤ 191 : Bool)
         else if b = 237 then (128 ≤ c1 && c1 ≤ 159 : Bool)
         else isUtf8Cont c1) && isUtf8Cont c2 && isValidUtf8 rest2
      | _ => false
    else if b ≤ 244 then
      match rest with
      | c1 :: c2 :: c3 :: rest2 =>
        (if b = 240 then (144 ≤ c1 && c1 ≤ 191 : Bool)
         else if b = 244 then (128 ≤ c1 && c1 ≤ 143 : Bool)
         else isUtf8Cont c1) && isUtf8Cont c2 && isUtf8Cont c3 &&
        isValidUtf8 rest2
      | _ => false
    else false

/-- Split the decompressed byte stream the way repeated
`BufRead::read_until(b'\n')` calls consume it: the complete chunks (each
including its terminating `0x0A`) in order, followed by the trailing
fragment that no newline terminates. -/
def splitNl : Bytes → List Bytes × Bytes
  | [] => ([], [])
  | b :: rest =>
    if b = 10 then ((10 :: []) :: (splitNl rest).1, (splitNl rest).2)
    else
      match splitNl rest with
      | ([], frag) => ([], b :: frag)
      | (c :: cs, frag) => ((b :: c) :: cs, frag)

/-- The trimming the `Lines` iterator applies to each `read_line` result:
pop a trailing `\n`, and only then a trailing `\r`. -/
def stripLine (c : Bytes) : Bytes :=
  if c.getLast? = some 10 then
    let c1 := c.dropLast
    if c1.getLast? = some 13 then c1.dropLast else c1
  else c

/-- Process the complete (newline-terminated) chunks the way the
`for line in ... .lines()` loop does: each chunk is UTF-8-validated by
`read_line` (kind `InvalidData` on failure, which the loop `bail!`s on) and
otherwise emitted after `stripLine`.  Returns the records emitted before
the first failure, and the failure kind if any. -/
def processChunks : List Bytes → List Bytes × Option ErrorKind
  | [] => ([], none)
  | c :: cs =>
    if isValidUtf8 c then
      ((stripLine c) :: (processChunks cs).1, (processChunks cs).2)
    else ([], some ErrorKind.invalidData)

/-- How the record loop in `run` exits: the `Lines` iterator is exhausted
(`finished`), the benign truncation signature was matched and the loop
`break`s (`brokeTruncation`), or `bail!(e)` aborted the run (`bailed`). -/
inductive LoopExit where
  | finished
  | brokeTruncation
  | bailed (k : ErrorKind)
deriving Repr, DecidableEq

/-- The record-salvage loop of `run` (src/main.rs lines 58-70), as a function
of the decompressor's observable behaviour: the decompressed bytes and the
terminating event.  Complete chunks are validated and emitted in order; at
clean end-of-stream a nonempty unterminated fragment is returned by
`read_line` as a final line (Rust's `lines()` semantics); a decompressor
error of kind `InvalidInput` breaks out of the loop, any other error kind
is `bail!`ed. -/
def lineLoop (bytes : Bytes) (term : Term) : List Bytes × LoopExit :=
  match processChunks (splitNl bytes).1 with
  | (recs, some k) => (recs, LoopExit.bailed k)
  | (recs, none) =>
    match term with
    | Term.eof =>
      if (splitNl bytes).2.isEmpty then (recs, LoopExit.finished)
      else if isValidUtf8 (splitNl bytes).2 then
        (recs ++ [stripLine (splitNl bytes).2], LoopExit.finished)
      else (recs, LoopExit.bailed ErrorKind.invalidData)
    | Term.err k =>
      if k = ErrorKind.invalidInput then (recs, LoopExit.brokeTruncation)
      else (recs, LoopExit.bailed k)

/-- Everything `run` can fail with in the model: a panic while parsing the
header, or a `bail!`ed `io::Error` from the record loop. -/
inductive RunError where
  | panic (p : ParsePanic)
  | ioError (k : ErrorKind)
deriving Repr, DecidableEq

/-- Observable outcome of `run`: the records written into the output
entry (in order, one `writeln!` each), whether `zipper.finish()` was
reached (the archive was finalized), and the error if the run failed. -/
structure RunResult where
  records : List Bytes
  finalized : Bool
  error : Option RunError
deriving Repr, DecidableEq

/-- Model of `run` from src/main.rs, starting after the CLI/mmap wrappers that are
out of scope: parse the local file header from the input bytes, feed the
remaining payload to the decompressor `decomp` (the external `flate2`
deflate decoder, modelled abstractly), and salvage records.  The output
file `rescued.zip.acmi` is created only after the header parse, so a parse
panic leaves no records and no finalized archive; a `bail!` leaves the
records written so far but never calls `zipper.finish()`. -/
def run (decomp : Bytes → Bytes × Term) (input : Bytes) : RunResult :=
  match parse_and_consume input with
  | Except.error p => ⟨[], false, some (RunError.panic p)⟩
  | Except.ok (_header, payload) =>
    match lineLoop (decomp payload).1 (decomp payload).2 with
    | (recs, LoopExit.bailed k) => ⟨recs, false, some (RunError.ioError k)⟩
    | (recs, _) => ⟨recs, true, none⟩

/-- The bytes `writeln!(zipper, "{line}")` puts into the output entry:
each record followed by a single `0x0A`. -/
def outputBytes : List Bytes → Bytes
  | [] => []
  | r :: rs => r ++ 10 :: outputBytes rs

/-- Modelled from the spec: "conventional whole-file decompression and
line-splitting" (§8).  Splits the fully decompressed byte stream into
newline-separated segments (terminators excluded) the way Rust's
`str::lines` does: a `\r` immediately before a split point is stripped,
and a nonempty final unterminated segment is kept as a line. -/
def convSplitRaw : Bytes → List Bytes × Bytes
  | [] => ([], [])
  | b :: rest =>
    if b = 10 then (([] : Bytes) :: (convSplitRaw rest).1, (convSplitRaw rest).2)
    else
      match convSplitRaw rest with
      | ([], frag) => ([], b :: frag)
      | (s :: ss, frag) => ((b :: s) :: ss, frag)

/-- Strip one trailing carriage return, as `str::lines` does on each
newline-terminated segment. -/
def stripCr (s : Bytes) : Bytes :=
  if s.getLast? = some 13 then s.dropLast else s

/-- Modelled from the spec: the record set obtained by conventional
line-splitting of the whole decompressed byte stream. -/
def convLines (bs : Bytes) : List Bytes :=
  (convSplitRaw bs).1.map stripCr ++
    (if (convSplitRaw bs).2.isEmpty then [] else [(convSplitRaw bs).2])

end AcmiRescue

namespace AcmiRescue

/-! ### Basic facts about the cursor and the header parser -/

theorem splitAtChecked_of_le {n : Nat} {l : Bytes} (h : n ≤ l.length) :
    splitAtChecked n l = some (l.take n, l.drop n) := by
  simp [splitAtChecked, h]

/-- Fully structured characterisation of `parse_and_consume`: on a buffer
that starts with the magic and the 26 fixed header bytes, followed by a tail
long enough for the declared path and extra-field lengths, the parse
succeeds, decodes every scalar field little-endian in source order, takes
the two variable-length fields, and leaves the cursor exactly past them. -/
theorem parse_structured
    (v0 v1 f0 f1 m0 m1 t0 t1 d0 d1 r0 r1 r2 r3 s0 s1 s2 s3
     u0 u1 u2 u3 p0 p1 e0 e1 : Nat) (tail : Bytes)
    (h : p0 + 256 * p1 + (e0 + 256 * e1) ≤ tail.length) :
    parse_and_consume
      (80 :: 75 :: 3 :: 4 :: v0 :: v1 :: f0 :: f1 :: m0 :: m1 :: t0 :: t1 ::
       d0 :: d1 :: r0 :: r1 :: r2 :: r3 :: s0 :: s1 :: s2 :: s3 ::
       u0 :: u1 :: u2 :: u3 :: p0 :: p1 :: e0 :: e1 :: tail)
    = Except.ok
        ({ minimum_extract_version := v0 + 256 * v1,
           flags := f0 + 256 * f1,
           compression_method := m0 + 256 * m1,
           last_modified_time := t0 + 256 * t1,
           last_modified_date := d0 + 256 * d1,
           crc32 := r0 + 256 * r1 + 65536 * r2 + 16777216 * r3,
           compressed_size := s0 + 256 * s1 + 65536 * s2 + 16777216 * s3,
           uncompressed_size := u0 + 256 * u1 + 65536 * u2 + 16777216 * u3,
           path := tail.take (p0 + 256 * p1),
           extra_field := (tail.drop (p0 + 256 * p1)).take (e0 + 256 * e1) },
         tail.drop (p0 + 256 * p1 + (e0 + 256 * e1))) := by
  have hp : p0 + 256 * p1 ≤ tail.length := by omega
  have he : e0 + 256 * e1 ≤ (tail.drop (p0 + 256 * p1)).length := by
    rw [List.length_drop]; omega
  simp [parse_and_consume, splitAtChecked_of_le hp, splitAtChecked_of_le he,
        splitAtChecked_of_le, orPanic, read_u16, read_u32,
        LOCAL_FILE_HEADER_MAGIC, List.drop_drop, bind, Except.bind, pure,
        Except.pure]

theorem parse_bad_magic {input : Bytes} (hlen : 4 ≤ input.length)
    (hmagic : input.take 4 ≠ LOCAL_FILE_HEADER_MAGIC) :
    parse_and_consume input = Except.error ParsePanic.badMagicAssert := by
  simp [parse_and_consume, splitAtChecked_of_le hlen, orPanic, hmagic,
        bind, Except.bind, throw, throwThe, MonadExceptOf.throw]

/-- C2: on any buffer that begins with the 4-byte signature and is long
enough for the 30-byte fixed header plus the declared path and extra-field
lengths, `parse_and_consume` reads the six scalar fields little-endian in
source order, then the two length fields, consumes exactly `path_length`
bytes of path and `extra_field_length` bytes of extra field, and leaves the
cursor advanced by exactly `30 + path_length + extra_field_length` bytes,
at the first payload byte. -/
theorem c2_parse_layout_and_cursor (whole : Bytes)
    (v0 v1 f0 f1 m0 m1 t0 t1 d0 d1 r0 r1 r2 r3 s0 s1 s2 s3
     u0 u1 u2 u3 p0 p1 e0 e1 : Nat) (tail : Bytes)
    (hw : whole =
      80 :: 75 :: 3 :: 4 :: v0 :: v1 :: f0 :: f1 :: m0 :: m1 :: t0 :: t1 ::
      d0 :: d1 :: r0 :: r1 :: r2 :: r3 :: s0 :: s1 :: s2 :: s3 ::
      u0 :: u1 :: u2 :: u3 :: p0 :: p1 :: e0 :: e1 :: tail)
    (h : p0 + 256 * p1 + (e0 + 256 * e1) ≤ tail.length) :
    parse_and_consume whole
      = Except.ok
        ({ minimum_extract_version := v0 + 256 * v1,
           flags := f0 + 256 * f1,
           compression_method := m0 + 256 * m1,
           last_modified_time := t0 + 256 * t1,
           last_modified_date := d0 + 256 * d1,
           crc32 := r0 + 256 * r1 + 65536 * r2 + 16777216 * r3,
           compressed_size := s0 + 256 * s1 + 65536 * s2 + 16777216 * s3,
           uncompressed_size := u0 + 256 * u1 + 65536 * u2 + 16777216 * u3,
           path := tail.take (p0 + 256 * p1),
           extra_field := (tail.drop (p0 + 256 * p1)).take (e0 + 256 * e1) },
         whole.drop (30 + (p0 + 256 * p1 + (e0 + 256 * e1)))) := by
  subst hw
  rw [parse_structured _ _ _ _ _ _ _ _ _ _ _ _ _ _ _ _ _ _ _ _ _ _ _ _ _ _ _ h]
  have hdrop :
      List.drop (30 + (p0 + 256 * p1 + (e0 + 256 * e1)))
        (80 :: 75 :: 3 :: 4 :: v0 :: v1 :: f0 :: f1 :: m0 :: m1 :: t0 :: t1 ::
         d0 :: d1 :: r0 :: r1 :: r2 :: r3 :: s0 :: s1 :: s2 :: s3 ::
         u0 :: u1 :: u2 :: u3 :: p0 :: p1 :: e0 :: e1 :: tail)
      = tail.drop (p0 + 256 * p1 + (e0 + 256 * e1)) := by
    rw [← List.drop_drop]; rfl
  rw [hdrop]

theorem c2_parse_layout_and_cursor_witness :
    ((1 + 256 * 0 + (1 + 256 * 0) ≤ ([7, 8, 9] : Bytes).length) ∧
     parse_and_consume
       [80, 75, 3, 4, 1, 0, 2, 0, 8, 0, 3, 0, 4, 0, 5, 0, 0, 0, 6, 0, 0, 0,
        7, 0, 0, 0, 1, 0, 1, 0, 7, 8, 9]
       = Except.ok
        ({ minimum_extract_version := 1, flags := 2, compression_method := 8,
           last_modified_time := 3, last_modified_date := 4, crc32 := 5,
           compressed_size := 6, uncompressed_size := 7,
           path := [7], extra_field := [8] }, [9])) := by
  constructor
  · decide
  · have hmain := c2_parse_layout_and_cursor
      [80, 75, 3, 4, 1, 0, 2, 0, 8, 0, 3, 0, 4, 0, 5, 0, 0, 0, 6, 0, 0, 0,
       7, 0, 0, 0, 1, 0, 1, 0, 7, 8, 9]
      1 0 2 0 8 0 3 0 4 0 5 0 0 0 6 0 0 0 7 0 0 0 1 0 1 0 [7, 8, 9]
      rfl (by decide)
    simpa using hmain

/-- C5: if the four bytes at the expected header offset are not
`P K 3 4`, the run fails with the bad-magic fatal error, no alternate
header offset is tried (the statement quantifies over arbitrary input
contents past offset 0, including inputs holding a valid signature at a
later offset), no record is written, and no output archive is finalized. -/
theorem c5_bad_magic_aborts (decomp : Bytes → Bytes × Term) (input : Bytes)
    (hlen : 4 ≤ input.length)
    (hmagic : input.take 4 ≠ LOCAL_FILE_HEADER_MAGIC) :
    run decomp input
      = ⟨[], false, some (RunError.panic ParsePanic.badMagicAssert)⟩ := by
  rw [run, parse_bad_magic hlen hmagic]

theorem c5_bad_magic_aborts_witness :
    (4 ≤ ([80, 75, 3, 5, 80, 75, 3, 4] : Bytes).length) ∧
    (([80, 75, 3, 5, 80, 75, 3, 4] : Bytes).take 4 ≠ LOCAL_FILE_HEADER_MAGIC) ∧
    run (fun p => (p, Term.eof)) [80, 75, 3, 5, 80, 75, 3, 4]
      = ⟨[], false, some (RunError.panic ParsePanic.badMagicAssert)⟩ := by
  refine ⟨by decide, by decide, ?_⟩
  exact c5_bad_magic_aborts (fun p => (p, Term.eof))
    [80, 75, 3, 5, 80, 75, 3, 4] (by decide) (by decide)

/-- C6: the recovered records (indeed the whole observable run outcome) do
not depend on the header's `crc32`, `compressed_size` or
`uncompressed_size` bytes: two inputs identical except in those twelve
header bytes produce identical run results, for every decompressor. -/
theorem c6_sizes_not_trusted (decomp : Bytes → Bytes × Term)
    (v0 v1 f0 f1 m0 m1 t0 t1 d0 d1 r0 r1 r2 r3 s0 s1 s2 s3
     u0 u1 u2 u3 a0 a1 a2 a3 b0 b1 b2 b3 q0 q1 q2 q3 p0 p1 e0 e1 : Nat)
    (tail : Bytes)
    (h : p0 + 256 * p1 + (e0 + 256 * e1) ≤ tail.length) :
    run decomp
      (80 :: 75 :: 3 :: 4 :: v0 :: v1 :: f0 :: f1 :: m0 :: m1 :: t0 :: t1 ::
       d0 :: d1 :: r0 :: r1 :: r2 :: r3 :: s0 :: s1 :: s2 :: s3 ::
       u0 :: u1 :: u2 :: u3 :: p0 :: p1 :: e0 :: e1 :: tail)
    = run decomp
      (80 :: 75 :: 3 :: 4 :: v0 :: v1 :: f0 :: f1 :: m0 :: m1 :: t0 :: t1 ::
       d0 :: d1 :: a0 :: a1 :: a2 :: a3 :: b0 :: b1 :: b2 :: b3 ::
       q0 :: q1 :: q2 :: q3 :: p0 :: p1 :: e0 :: e1 :: tail) := by
  rw [run, run,
      parse_structured _ _ _ _ _ _ _ _ _ _ _ _ _ _ _ _ _ _ _ _ _ _ _ _ _ _ _ h,
      parse_structured _ _ _ _ _ _ _ _ _ _ _ _ _ _ _ _ _ _ _ _ _ _ _ _ _ _ _ h]

theorem c6_sizes_not_trusted_witness :
    (0 + 256 * 0 + (0 + 256 * 0) ≤ ([1, 2, 3] : Bytes).length) ∧
    run (fun p => (p, Term.err ErrorKind.invalidInput))
      [80, 75, 3, 4, 20, 0, 2, 0, 8, 0, 3, 0, 4, 0, 5, 0, 0, 0, 6, 0, 0, 0,
       7, 0, 0, 0, 0, 0, 0, 0, 1, 2, 3]
    = run (fun p => (p, Term.err ErrorKind.invalidInput))
      [80, 75, 3, 4, 20, 0, 2, 0, 8, 0, 3, 0, 4, 0, 99, 98, 97, 96, 0, 0, 0,
       0, 255, 255, 255, 255, 0, 0, 0, 0, 1, 2, 3] := by
  refine ⟨by decide, ?_⟩
  exact c6_sizes_not_trusted (fun p => (p, Term.err ErrorKind.invalidInput))
    20 0 2 0 8 0 3 0 4 0 5 0 0 0 6 0 0 0 7 0 0 0
    99 98 97 96 0 0 0 0 255 255 255 255 0 0 0 0 [1, 2, 3] (by decide)

/-! ### Facts about the salvage loop -/

theorem processChunks_all_valid {cs : List Bytes}
    (h : ∀ c ∈ cs, isValidUtf8 c = true) :
    processChunks cs = (cs.map stripLine, none) := by
  induction cs with
  | nil => rfl
  | cons c cs ih =>
    have hc : isValidUtf8 c = true := h c (List.mem_cons_self c cs)
    have hcs : ∀ x ∈ cs, isValidUtf8 x = true :=
      fun x hx => h x (List.mem_cons_of_mem c hx)
    simp [processChunks, hc, ih hcs]

theorem processChunks_invalid {cs : List Bytes}
    (h : ∃ c ∈ cs, isValidUtf8 c = false) :
    (processChunks cs).2 = some ErrorKind.invalidData := by
  induction cs with
  | nil => simp at h
  | cons c cs ih =>
    by_cases hc : isValidUtf8 c = true
    · have : ∃ x ∈ cs, isValidUtf8 x = false := by
        rcases h with ⟨x, hx, hbad⟩
        rcases List.mem_cons.mp hx with hx | hx
        · subst hx; rw [hc] at hbad; exact absurd hbad (by simp)
        · exact ⟨x, hx, hbad⟩
      simp [processChunks, hc, ih this]
    · simp [processChunks, hc]

theorem splitNl_frag_no_nl (bs : Bytes) : 10 ∉ (splitNl bs).2 := by
  induction bs with
  | nil => simp [splitNl]
  | cons b rest ih =>
    by_cases hb : b = 10
    · simp [splitNl, hb, ih]
    · rcases hsp : splitNl rest with ⟨cs, frag⟩
      rw [hsp] at ih
      cases cs with
      | nil => simp [splitNl, hb, hsp]; exact ⟨fun hx => hb hx.symm, ih⟩
      | cons c cs => simp [splitNl, hb, hsp]; exact ih

theorem stripLine_no_nl {f : Bytes} (h : 10 ∉ f) : stripLine f = f := by
  rw [stripLine, if_neg]
  intro hlast
  exact h (List.mem_of_mem_getLast? hlast)

theorem stripLine_concat_nl (s : Bytes) : stripLine (s ++ [10]) = stripCr s := by
  rw [stripLine, if_pos (List.getLast?_concat s), stripCr]
  simp [List.dropLast_concat]

theorem splitNl_convSplitRaw (bs : Bytes) :
    (splitNl bs).1 = (convSplitRaw bs).1.map (fun s => s ++ [10]) ∧
    (splitNl bs).2 = (convSplitRaw bs).2 := by
  induction bs with
  | nil => simp [splitNl, convSplitRaw]
  | cons b rest ih =>
    by_cases hb : b = 10
    · simp [splitNl, convSplitRaw, hb, ih.1, ih.2]
    · rcases hc : convSplitRaw rest with ⟨ss, cfrag⟩
      rcases hs : splitNl rest with ⟨cs, frag⟩
      rw [hc, hs] at ih
      obtain ⟨ih1, ih2⟩ := ih
      simp only at ih1 ih2
      subst ih1
      subst ih2
      cases ss with
      | nil => simp [splitNl, convSplitRaw, hb, hc, hs]
      | cons s ss => simp [splitNl, convSplitRaw, hb, hc, hs]

theorem lineLoop_eof_all_valid {bytes : Bytes}
    (hch : ∀ c ∈ (splitNl bytes).1, isValidUtf8 c = true)
    (hfr : isValidUtf8 (splitNl bytes).2 = true) :
    lineLoop bytes Term.eof =
      ((splitNl bytes).1.map stripLine ++
        (if (splitNl bytes).2.isEmpty then [] else [(splitNl bytes).2]),
       LoopExit.finished) := by
  have hnostrip : stripLine (splitNl bytes).2 = (splitNl bytes).2 :=
    stripLine_no_nl (splitNl_frag_no_nl bytes)
  rw [lineLoop, processChunks_all_valid hch]
  by_cases hemp : (splitNl bytes).2.isEmpty
  · simp [hemp]
  · simp [hemp, hfr, hnostrip]

theorem lineLoop_err {bytes : Bytes} {k : ErrorKind}
    (hch : ∀ c ∈ (splitNl bytes).1, isValidUtf8 c = true) :
    lineLoop bytes (Term.err k) =
      ((splitNl bytes).1.map stripLine,
       if k = ErrorKind.invalidInput then LoopExit.brokeTruncation
       else LoopExit.bailed k) := by
  rw [lineLoop, processChunks_all_valid hch]
  by_cases hk : k = ErrorKind.invalidInput <;> simp [hk]

/-- C1: suppose the header parses and the record loop reaches the point
where the decompressor reports an error (i.e. every complete line so far
was valid UTF-8).  If the error kind is the malformed-input signature
(`InvalidInput`, `flate2`'s corrupt-deflate-stream kind) the loop stops at
once: the partially accumulated unterminated fragment `(splitNl bytes).2`
is discarded, every already-emitted record is kept, the archive is still
finalized, and the run succeeds with no error.  Any other error kind
aborts the run with that error surfaced and no finalization. -/
theorem c1_truncation_benign_other_fatal
    (decomp : Bytes → Bytes × Term) (input : Bytes) (hdr : LocalFileHeader)
    (payload bytes : Bytes)
    (hparse : parse_and_consume input = Except.ok (hdr, payload))
    (hvalid : ∀ c ∈ (splitNl bytes).1, isValidUtf8 c = true) :
    (decomp payload = (bytes, Term.err ErrorKind.invalidInput) →
      run decomp input = ⟨(splitNl bytes).1.map stripLine, true, none⟩) ∧
    (∀ k : ErrorKind, decomp payload = (bytes, Term.err k) →
      k ≠ ErrorKind.invalidInput →
      run decomp input
        = ⟨(splitNl bytes).1.map stripLine, false,
           some (RunError.ioError k)⟩) := by
  constructor
  · intro hdec
    rw [run, hparse]
    dsimp only
    rw [hdec]
    dsimp only
    rw [lineLoop_err hvalid]
    simp
  · intro k hdec hk
    rw [run, hparse]
    dsimp only
    rw [hdec]
    dsimp only
    rw [lineLoop_err hvalid]
    simp [hk]

theorem c1_truncation_benign_other_fatal_witness :
    (parse_and_consume [80, 75, 3, 4, 0, 0, 0, 0, 0, 0, 0, 0, 0, 0, 0, 0,
       0, 0, 0, 0, 0, 0, 0, 0, 0, 0, 0, 0, 0, 0, 55]
      = Except.ok
        ({ minimum_extract_version := 0, flags := 0, compression_method := 0,
           last_modified_time := 0, last_modified_date := 0, crc32 := 0,
           compressed_size := 0, uncompressed_size := 0,
           path := [], extra_field := [] }, [55])) ∧
    (∀ c ∈ (splitNl [65, 10, 66]).1, isValidUtf8 c = true) ∧
    run (fun _ => ([65, 10, 66], Term.err ErrorKind.invalidInput))
      [80, 75, 3, 4, 0, 0, 0, 0, 0, 0, 0, 0, 0, 0, 0, 0,
       0, 0, 0, 0, 0, 0, 0, 0, 0, 0, 0, 0, 0, 0, 55]
      = ⟨[[65]], true, none⟩ := by
  refine ⟨rfl, by decide, ?_⟩
  have hmain := (c1_truncation_benign_other_fatal
    (fun _ => ([65, 10, 66], Term.err ErrorKind.invalidInput))
    [80, 75, 3, 4, 0, 0, 0, 0, 0, 0, 0, 0, 0, 0, 0, 0,
     0, 0, 0, 0, 0, 0, 0, 0, 0, 0, 0, 0, 0, 0, 55]
    { minimum_extract_version := 0, flags := 0, compression_method := 0,
      last_modified_time := 0, last_modified_date := 0, crc32 := 0,
      compressed_size := 0, uncompressed_size := 0,
      path := [], extra_field := [] }
    [55] [65, 10, 66] rfl (by decide)).1 rfl
  simpa using hmain

/-- C3 (code evaluation at the failing input): on a header followed by a
payload whose decompression ends cleanly with the bytes `"A\nB"` — a
complete, non-truncated stream whose text lacks a trailing newline — the
pipeline emits the unterminated fragment `"B"` as a record and writes it
to the output archive.  Rust's `BufRead::lines` returns a final
unterminated fragment at clean end-of-stream, contradicting both the
claim and the comment at src/main.rs lines 56-57. -/
theorem c3_unterminated_fragment_emitted :
    run (fun _ => ([65, 10, 66], Term.eof))
      [80, 75, 3, 4, 0, 0, 0, 0, 0, 0, 0, 0, 0, 0, 0, 0,
       0, 0, 0, 0, 0, 0, 0, 0, 0, 0, 0, 0, 0, 0]
      = ⟨[[65], [66]], true, none⟩ ∧
    outputBytes [[65], [66]] = [65, 10, 66, 10] := by decide

/-- C8: a payload producing zero decompressed bytes is not an error —
whether the decompressor reports a clean end-of-stream or the benign
truncation signature on the empty stream, the run succeeds and produces a
finalized archive whose entry holds zero records. -/
theorem c8_empty_payload_ok
    (decomp : Bytes → Bytes × Term) (input : Bytes) (hdr : LocalFileHeader)
    (payload : Bytes)
    (hparse : parse_and_consume input = Except.ok (hdr, payload))
    (hdec : decomp payload = ([], Term.eof) ∨
            decomp payload = ([], Term.err ErrorKind.invalidInput)) :
    run decomp input = ⟨[], true, none⟩ := by
  rcases hdec with hdec | hdec <;>
    · rw [run, hparse]
      dsimp only
      rw [hdec]
      dsimp only
      simp [lineLoop, processChunks, splitNl]

theorem c8_empty_payload_ok_witness :
    (parse_and_consume [80, 75, 3, 4, 0, 0, 0, 0, 0, 0, 0, 0, 0, 0, 0, 0,
       0, 0, 0, 0, 0, 0, 0, 0, 0, 0, 0, 0, 0, 0]
      = Except.ok
        ({ minimum_extract_version := 0, flags := 0, compression_method := 0,
           last_modified_time := 0, last_modified_date := 0, crc32 := 0,
           compressed_size := 0, uncompressed_size := 0,
           path := [], extra_field := [] }, [])) ∧
    run (fun _ => ([], Term.eof))
      [80, 75, 3, 4, 0, 0, 0, 0, 0, 0, 0, 0, 0, 0, 0, 0,
       0, 0, 0, 0, 0, 0, 0, 0, 0, 0, 0, 0, 0, 0]
      = ⟨[], true, none⟩ := by
  refine ⟨rfl, ?_⟩
  exact c8_empty_payload_ok (fun _ => ([], Term.eof))
    [80, 75, 3, 4, 0, 0, 0, 0, 0, 0, 0, 0, 0, 0, 0, 0,
     0, 0, 0, 0, 0, 0, 0, 0, 0, 0, 0, 0, 0, 0]
    { minimum_extract_version := 0, flags := 0, compression_method := 0,
      last_modified_time := 0, last_modified_date := 0, crc32 := 0,
      compressed_size := 0, uncompressed_size := 0,
      path := [], extra_field := [] }
    [] rfl (Or.inl rfl)

/-- C9: if the decompressed stream contains a newline-terminated line whose
bytes are not valid UTF-8, the run aborts with a fatal error before the
archive is finalized: `read_line` reports kind `InvalidData`, which differs
from the benign truncation signature `InvalidInput`, so `run` `bail!`s. -/
theorem c9_invalid_utf8_fatal
    (decomp : Bytes → Bytes × Term) (input : Bytes) (hdr : LocalFileHeader)
    (payload bytes : Bytes) (term : Term)
    (hparse : parse_and_consume input = Except.ok (hdr, payload))
    (hdec : decomp payload = (bytes, term))
    (hbad : ∃ c ∈ (splitNl bytes).1, isValidUtf8 c = false) :
    (run decomp input).finalized = false ∧
    (run decomp input).error = some (RunError.ioError ErrorKind.invalidData) ∧
    ErrorKind.invalidData ≠ ErrorKind.invalidInput := by
  have hpc2 : (processChunks (splitNl bytes).1).2 = some ErrorKind.invalidData :=
    processChunks_invalid hbad
  rcases hpc : processChunks (splitNl bytes).1 with ⟨recs, e⟩
  rw [hpc] at hpc2
  simp only at hpc2
  subst hpc2
  have hloop : lineLoop bytes term = (recs, LoopExit.bailed ErrorKind.invalidData) := by
    rw [lineLoop, hpc]
  rw [run, hparse]
  dsimp only
  rw [hdec]
  dsimp only
  rw [hloop]
  simp

theorem c9_invalid_utf8_fatal_witness :
    (parse_and_consume [80, 75, 3, 4, 0, 0, 0, 0, 0, 0, 0, 0, 0, 0, 0, 0,
       0, 0, 0, 0, 0, 0, 0, 0, 0, 0, 0, 0, 0, 0]
      = Except.ok
        ({ minimum_extract_version := 0, flags := 0, compression_method := 0,
           last_modified_time := 0, last_modified_date := 0, crc32 := 0,
           compressed_size := 0, uncompressed_size := 0,
           path := [], extra_field := [] }, [])) ∧
    (∃ c ∈ (splitNl [255, 10, 66, 10]).1, isValidUtf8 c = false) ∧
    (run (fun _ => ([255, 10, 66, 10], Term.eof))
      [80, 75, 3, 4, 0, 0, 0, 0, 0, 0, 0, 0, 0, 0, 0, 0,
       0, 0, 0, 0, 0, 0, 0, 0, 0, 0, 0, 0, 0, 0]).finalized = false ∧
    (run (fun _ => ([255, 10, 66, 10], Term.eof))
      [80, 75, 3, 4, 0, 0, 0, 0, 0, 0, 0, 0, 0, 0, 0, 0,
       0, 0, 0, 0, 0, 0, 0, 0, 0, 0, 0, 0, 0, 0]).error
      = some (RunError.ioError ErrorKind.invalidData) := by
  have hmain := c9_invalid_utf8_fatal (fun _ => ([255, 10, 66, 10], Term.eof))
    [80, 75, 3, 4, 0, 0, 0, 0, 0, 0, 0, 0, 0, 0, 0, 0,
     0, 0, 0, 0, 0, 0, 0, 0, 0, 0, 0, 0, 0, 0]
    { minimum_extract_version := 0, flags := 0, compression_method := 0,
      last_modified_time := 0, last_modified_date := 0, crc32 := 0,
      compressed_size := 0, uncompressed_size := 0,
      path := [], extra_field := [] }
    [] [255, 10, 66, 10] Term.eof rfl rfl
    ⟨[255, 10], by decide⟩
  exact ⟨rfl, ⟨[255, 10], by decide⟩, hmain.1, hmain.2.1⟩

/-! ### The record stream seen through `run` -/

theorem run_records (decomp : Bytes → Bytes × Term) (input : Bytes)
    (hdr : LocalFileHeader) (payload : Bytes)
    (hparse : parse_and_consume input = Except.ok (hdr, payload)) :
    (run decomp input).records
      = (lineLoop (decomp payload).1 (decomp payload).2).1 := by
  rw [run, hparse]
  dsimp only
  rcases hl : lineLoop (decomp payload).1 (decomp payload).2 with ⟨recs, ex⟩
  cases ex <;> rfl

/-- C4: on a well-formed input — the header parses and the decompressor
consumes the whole payload and ends cleanly — the recovered records equal
the records of conventional whole-stream decompression followed by
line-splitting (`convLines`, written from the spec's words), the run
succeeds, and the archive is finalized: no data loss on well-formed
input. -/
theorem c4_valid_input_no_loss
    (decomp : Bytes → Bytes × Term) (input : Bytes) (hdr : LocalFileHeader)
    (payload bytes : Bytes)
    (hparse : parse_and_consume input = Except.ok (hdr, payload))
    (hdec : decomp payload = (bytes, Term.eof))
    (hch : ∀ c ∈ (splitNl bytes).1, isValidUtf8 c = true)
    (hfr : isValidUtf8 (splitNl bytes).2 = true) :
    (run decomp input).records = convLines bytes ∧
    (run decomp input).error = none ∧
    (run decomp input).finalized = true := by
  have hloop := lineLoop_eof_all_valid hch hfr
  have hrun : run decomp input =
      ⟨(splitNl bytes).1.map stripLine ++
        (if (splitNl bytes).2.isEmpty then [] else [(splitNl bytes).2]),
       true, none⟩ := by
    rw [run, hparse]
    dsimp only
    rw [hdec]
    dsimp only
    rw [hloop]
  rw [hrun]
  refine ⟨?_, rfl, rfl⟩
  obtain ⟨h1, h2⟩ := splitNl_convSplitRaw bytes
  rw [convLines, ← h2, h1, List.map_map]
  dsimp only
  congr 1
  exact List.map_congr_left fun s _ => stripLine_concat_nl s

theorem c4_valid_input_no_loss_witness :
    (parse_and_consume [80, 75, 3, 4, 0, 0, 0, 0, 0, 0, 0, 0, 0, 0, 0, 0,
       0, 0, 0, 0, 0, 0, 0, 0, 0, 0, 0, 0, 0, 0]
      = Except.ok
        ({ minimum_extract_version := 0, flags := 0, compression_method := 0,
           last_modified_time := 0, last_modified_date := 0, crc32 := 0,
           compressed_size := 0, uncompressed_size := 0,
           path := [], extra_field := [] }, [])) ∧
    (∀ c ∈ (splitNl [65, 13, 10, 66, 10, 67]).1, isValidUtf8 c = true) ∧
    (run (fun _ => ([65, 13, 10, 66, 10, 67], Term.eof))
      [80, 75, 3, 4, 0, 0, 0, 0, 0, 0, 0, 0, 0, 0, 0, 0,
       0, 0, 0, 0, 0, 0, 0, 0, 0, 0, 0, 0, 0, 0]).records
      = convLines [65, 13, 10, 66, 10, 67] ∧
    convLines [65, 13, 10, 66, 10, 67] = [[65], [66], [67]] := by
  have hmain := c4_valid_input_no_loss
    (fun _ => ([65, 13, 10, 66, 10, 67], Term.eof))
    [80, 75, 3, 4, 0, 0, 0, 0, 0, 0, 0, 0, 0, 0, 0, 0,
     0, 0, 0, 0, 0, 0, 0, 0, 0, 0, 0, 0, 0, 0]
    { minimum_extract_version := 0, flags := 0, compression_method := 0,
      last_modified_time := 0, last_modified_date := 0, crc32 := 0,
      compressed_size := 0, uncompressed_size := 0,
      path := [], extra_field := [] }
    [] [65, 13, 10, 66, 10, 67] rfl rfl (by decide) (by decide)
  exact ⟨rfl, by decide, hmain.1, by decide⟩

/-! ### Monotonicity under truncation -/

theorem splitNl_cons_nl (xs : Bytes) :
    splitNl (10 :: xs) = ((10 :: []) :: (splitNl xs).1, (splitNl xs).2) := by
  simp [splitNl]

theorem splitNl_cons_ne {b : Nat} (xs : Bytes) (hb : b ≠ 10) :
    splitNl (b :: xs)
      = match splitNl xs with
        | ([], frag) => ([], b :: frag)
        | (c :: cs, frag) => ((b :: c) :: cs, frag) := by
  simp [splitNl, hb]

theorem splitNl_append (bs ext : Bytes) :
    splitNl (bs ++ ext)
      = ((splitNl bs).1 ++ (splitNl ((splitNl bs).2 ++ ext)).1,
         (splitNl ((splitNl bs).2 ++ ext)).2) := by
  induction bs with
  | nil => simp [splitNl]
  | cons b rest ih =>
    rw [List.cons_append]
    by_cases hb : b = 10
    · subst hb
      rw [splitNl_cons_nl, splitNl_cons_nl, ih]
      simp
    · rcases hsr : splitNl rest with ⟨c1, f⟩
      rcases hsa : splitNl (f ++ ext) with ⟨A, B⟩
      have ih2 : splitNl (rest ++ ext) = (c1 ++ A, B) := by
        rw [ih, hsr]
        simp only
        rw [hsa]
      cases c1 with
      | nil =>
        cases A with
        | nil => simp [splitNl_cons_ne _ hb, ih2, hsr, hsa]
        | cons a as => simp [splitNl_cons_ne _ hb, ih2, hsr, hsa]
      | cons c cs1 => simp [splitNl_cons_ne _ hb, ih2, hsr, hsa]

theorem splitNl_prefix_chunks {bs1 bs2 : Bytes} (h : bs1 <+: bs2) :
    (splitNl bs1).1 <+: (splitNl bs2).1 := by
  obtain ⟨ext, rfl⟩ := h
  rw [splitNl_append]
  exact List.prefix_append _ _

theorem processChunks_length_mono {cs1 cs2 : List Bytes} (h : cs1 <+: cs2) :
    (processChunks cs1).1.length ≤ (processChunks cs2).1.length := by
  obtain ⟨e, rfl⟩ := h
  induction cs1 with
  | nil => simp [processChunks]
  | cons c cs ih =>
    by_cases hc : isValidUtf8 c = true
    · simpa [processChunks, hc] using ih
    · simp [processChunks, hc]

theorem lineLoop_err_records (bs : Bytes) (k : ErrorKind) :
    (lineLoop bs (Term.err k)).1 = (processChunks (splitNl bs).1).1 := by
  rw [lineLoop]
  rcases hpc : processChunks (splitNl bs).1 with ⟨recs, e⟩
  cases e with
  | none => by_cases hk : k = ErrorKind.invalidInput <;> simp [hk]
  | some k2 => rfl

theorem lineLoop_length_ge (bs : Bytes) (term : Term) :
    (processChunks (splitNl bs).1).1.length ≤ (lineLoop bs term).1.length := by
  rw [lineLoop]
  rcases hpc : processChunks (splitNl bs).1 with ⟨recs, e⟩
  cases e with
  | none =>
    cases term with
    | eof =>
      by_cases hemp : (splitNl bs).2.isEmpty
      · simp [hemp]
      · by_cases hfr : isValidUtf8 (splitNl bs).2 = true
        · simp [hemp, hfr]
        · simp [hemp, hfr]
    | err k => by_cases hk : k = ErrorKind.invalidInput <;> simp [hk]
  | some k2 => simp

/-- C7: truncating the input at `k` never yields more records than
truncating it at `k' > k`.  Both truncations still contain the header, so
both parse to the same structure with payloads that are nested prefixes;
deflate being a streaming code, the shorter payload decompresses to a
prefix of the longer one's output and (when the cut falls strictly inside
the stream) ends in the malformed-input signature — that streaming
property of the external decompressor is the hypothesis `hstream` (its
second disjunct covers cuts at or past the natural end of the stream,
where the decoder ignores the extra bytes and behaves identically). -/
theorem c7_truncation_monotone
    (decomp : Bytes → Bytes × Term) (input1 input2 : Bytes)
    (hdr1 hdr2 : LocalFileHeader) (payload1 payload2 : Bytes)
    (hparse1 : parse_and_consume input1 = Except.ok (hdr1, payload1))
    (hparse2 : parse_and_consume input2 = Except.ok (hdr2, payload2))
    (hstream :
      ((decomp payload1).1 <+: (decomp payload2).1 ∧
        (decomp payload1).2 = Term.err ErrorKind.invalidInput) ∨
      decomp payload1 = decomp payload2) :
    (run decomp input1).records.length
      ≤ (run decomp input2).records.length := by
  rw [run_records decomp input1 hdr1 payload1 hparse1,
      run_records decomp input2 hdr2 payload2 hparse2]
  rcases hstream with ⟨hpre, herr⟩ | heq
  · rw [herr, lineLoop_err_records]
    exact Nat.le_trans
      (processChunks_length_mono (splitNl_prefix_chunks hpre))
      (lineLoop_length_ge (decomp payload2).1 (decomp payload2).2)
  · rw [heq]

theorem c7_truncation_monotone_witness :
    (parse_and_consume [80, 75, 3, 4, 0, 0, 0, 0, 0, 0, 0, 0, 0, 0, 0, 0,
       0, 0, 0, 0, 0, 0, 0, 0, 0, 0, 0, 0, 0, 0, 1]
      = Except.ok
        ({ minimum_extract_version := 0, flags := 0, compression_method := 0,
           last_modified_time := 0, last_modified_date := 0, crc32 := 0,
           compressed_size := 0, uncompressed_size := 0,
           path := [], extra_field := [] }, [1])) ∧
    (parse_and_consume [80, 75, 3, 4, 0, 0, 0, 0, 0, 0, 0, 0, 0, 0, 0, 0,
       0, 0, 0, 0, 0, 0, 0, 0, 0, 0, 0, 0, 0, 0, 1, 2]
      = Except.ok
        ({ minimum_extract_version := 0, flags := 0, compression_method := 0,
           last_modified_time := 0, last_modified_date := 0, crc32 := 0,
           compressed_size := 0, uncompressed_size := 0,
           path := [], extra_field := [] }, [1, 2])) ∧
    (run (fun p => (if p = [1] then [65, 10, 66] else [65, 10, 66, 10],
                    if p = [1] then Term.err ErrorKind.invalidInput
                    else Term.eof))
       [80, 75, 3, 4, 0, 0, 0, 0, 0, 0, 0, 0, 0, 0, 0, 0,
        0, 0, 0, 0, 0, 0, 0, 0, 0, 0, 0, 0, 0, 0, 1]).records.length
      ≤ (run (fun p => (if p = [1] then [65, 10, 66] else [65, 10, 66, 10],
                        if p = [1] then Term.err ErrorKind.invalidInput
                        else Term.eof))
       [80, 75, 3, 4, 0, 0, 0, 0, 0, 0, 0, 0, 0, 0, 0, 0,
        0, 0, 0, 0, 0, 0, 0, 0, 0, 0, 0, 0, 0, 0, 1, 2]).records.length := by
  refine ⟨rfl, rfl, ?_⟩
  exact c7_truncation_monotone
    (fun p => (if p = [1] then [65, 10, 66] else [65, 10, 66, 10],
               if p = [1] then Term.err ErrorKind.invalidInput else Term.eof))
    [80, 75, 3, 4, 0, 0, 0, 0, 0, 0, 0, 0, 0, 0, 0, 0,
     0, 0, 0, 0, 0, 0, 0, 0, 0, 0, 0, 0, 0, 0, 1]
    [80, 75, 3, 4, 0, 0, 0, 0, 0, 0, 0, 0, 0, 0, 0, 0,
     0, 0, 0, 0, 0, 0, 0, 0, 0, 0, 0, 0, 0, 0, 1, 2]
    { minimum_extract_version := 0, flags := 0, compression_method := 0,
      last_modified_time := 0, last_modified_date := 0, crc32 := 0,
      compressed_size := 0, uncompressed_size := 0,
      path := [], extra_field := [] }
    { minimum_extract_version := 0, flags := 0, compression_method := 0,
      last_modified_time := 0, last_modified_date := 0, crc32 := 0,
      compressed_size := 0, uncompressed_size := 0,
      path := [], extra_field := [] }
    [1] [1, 2] rfl rfl
    (Or.inl ⟨⟨[10], by decide⟩, by decide⟩)

/-! ### CRLF handling -/

theorem stripCr_concat_cr (l : Bytes) : stripCr (l ++ [13]) = l := by
  rw [stripCr, if_pos (List.getLast?_concat l), List.dropLast_concat]

theorem splitNl_chunk {l : Bytes} (rest : Bytes) (h : 10 ∉ l) :
    splitNl (l ++ 10 :: rest)
      = ((l ++ [10]) :: (splitNl rest).1, (splitNl rest).2) := by
  induction l with
  | nil => simp [splitNl]
  | cons a l ih =>
    have ha : a ≠ 10 := fun hx => h (hx ▸ List.mem_cons_self a l)
    have hl : 10 ∉ l := fun hx => h (List.mem_cons_of_mem a hx)
    rw [List.cons_append, splitNl_cons_ne (l ++ 10 :: rest) ha, ih hl]
    simp

theorem lineLoop_cons_chunk {l : Bytes} (rest : Bytes) (term : Term)
    (h10 : 10 ∉ l) (hv : isValidUtf8 (l ++ [10]) = true) :
    lineLoop (l ++ 10 :: rest) term
      = (stripLine (l ++ [10]) :: (lineLoop rest term).1,
         (lineLoop rest term).2) := by
  rw [lineLoop, lineLoop, splitNl_chunk rest h10]
  simp only [processChunks, hv, if_pos]
  rcases hpc : processChunks (splitNl rest).1 with ⟨recs, e⟩
  cases e with
  | some k => rfl
  | none =>
    cases term with
    | eof =>
      by_cases hemp : (splitNl rest).2.isEmpty
      · simp [hemp]
      · by_cases hfr : isValidUtf8 (splitNl rest).2 = true
        · simp [hemp, hfr]
        · simp [hemp, hfr]
    | err k => by_cases hk : k = ErrorKind.invalidInput <;> simp [hk]

/-- C10: a decompressed line terminated by a carriage return immediately
followed by a newline is emitted with both terminator bytes stripped, and
`writeln!` writes the record followed by a single `0x0A` into the output
entry: CRLF endings are normalized to LF in the recovered output. -/
theorem c10_crlf_normalized_to_lf
    (decomp : Bytes → Bytes × Term) (input : Bytes) (hdr : LocalFileHeader)
    (payload l rest : Bytes) (term : Term)
    (hparse : parse_and_consume input = Except.ok (hdr, payload))
    (hdec : decomp payload = (l ++ 13 :: 10 :: rest, term))
    (h10 : 10 ∉ l)
    (hv : isValidUtf8 (l ++ [13, 10]) = true) :
    (run decomp input).records = l :: (lineLoop rest term).1 ∧
    outputBytes (run decomp input).records
      = l ++ 10 :: outputBytes (lineLoop rest term).1 := by
  have h10c : 10 ∉ l ++ [13] := by
    intro hx
    rcases List.mem_append.mp hx with hx | hx
    · exact h10 hx
    · simp at hx
  have hv2 : isValidUtf8 ((l ++ [13]) ++ [10]) = true := by
    simpa [List.append_assoc] using hv
  have hshape : l ++ 13 :: 10 :: rest = (l ++ [13]) ++ 10 :: rest := by
    simp
  have hrecs : (run decomp input).records
      = stripLine ((l ++ [13]) ++ [10]) :: (lineLoop rest term).1 := by
    rw [run_records decomp input hdr payload hparse, hdec]
    dsimp only
    rw [hshape, lineLoop_cons_chunk rest term h10c hv2]
  have hstrip : stripLine ((l ++ [13]) ++ [10]) = l := by
    rw [stripLine_concat_nl, stripCr_concat_cr]
  rw [hrecs, hstrip]
  exact ⟨rfl, rfl⟩

theorem c10_crlf_normalized_to_lf_witness :
    (parse_and_consume [80, 75, 3, 4, 0, 0, 0, 0, 0, 0, 0, 0, 0, 0, 0, 0,
       0, 0, 0, 0, 0, 0, 0, 0, 0, 0, 0, 0, 0, 0]
      = Except.ok
        ({ minimum_extract_version := 0, flags := 0, compression_method := 0,
           last_modified_time := 0, last_modified_date := 0, crc32 := 0,
           compressed_size := 0, uncompressed_size := 0,
           path := [], extra_field := [] }, [])) ∧
    (10 ∉ ([65, 66] : Bytes)) ∧
    (run (fun _ => ([65, 66, 13, 10, 67, 10], Term.eof))
      [80, 75, 3, 4, 0, 0, 0, 0, 0, 0, 0, 0, 0, 0, 0, 0,
       0, 0, 0, 0, 0, 0, 0, 0, 0, 0, 0, 0, 0, 0]).records
      = [65, 66] :: (lineLoop [67, 10] Term.eof).1 ∧
    outputBytes (run (fun _ => ([65, 66, 13, 10, 67, 10], Term.eof))
      [80, 75, 3, 4, 0, 0, 0, 0, 0, 0, 0, 0, 0, 0, 0, 0,
       0, 0, 0, 0, 0, 0, 0, 0, 0, 0, 0, 0, 0, 0]).records
      = [65, 66] ++ 10 :: outputBytes (lineLoop [67, 10] Term.eof).1 := by
  have hmain := c10_crlf_normalized_to_lf
    (fun _ => ([65, 66, 13, 10, 67, 10], Term.eof))
    [80, 75, 3, 4, 0, 0, 0, 0, 0, 0, 0, 0, 0, 0, 0, 0,
     0, 0, 0, 0, 0, 0, 0, 0, 0, 0, 0, 0, 0, 0]
    { minimum_extract_version := 0, flags := 0, compression_method := 0,
      last_modified_time := 0, last_modified_date := 0, crc32 := 0,
      compressed_size := 0, uncompressed_size := 0,
      path := [], extra_field := [] }
    [] [65, 66] [67, 10] Term.eof rfl rfl (by decide) (by decide)
  exact ⟨rfl, by decide, hmain.1, hmain.2⟩

end AcmiRescue
